import Mathlib

/-!
Verification development for the eRegulations MCP server core
(`src/mcp_eregulations/utils/indexing.py` and
`src/mcp_eregulations/utils/subscriptions.py`).

The Python code is shallowly embedded: JSON-like Python values become the
inductive `PyVal`; fallible attribute access and iteration return
`Except PyErr`; the `SearchIndex` instance state (four in-memory maps plus
the on-disk index files) becomes the structure `SearchIndexState`, where the
persistent store holds the JSON values that `_save_indices` writes; the time
source `datetime.now()` is threaded as an explicit argument.  Python dicts
(insertion ordered, unique keys) are modelled as association lists with
replace-in-place insertion.
-/

/-- Errors raised by the embedded Python fragments: `TypeError` (unhashable
element added to a set, iterating a non-iterable), `AttributeError`
(`.get` on a non-mapping) and `re.error` (regex compilation failure). -/
inductive PyErr where
  | typeError
  | attributeError
  | reError
deriving DecidableEq

/-- JSON-like Python values: `None`, booleans, integers, strings, lists and
string-keyed dicts (the payload domain of the indexing code). -/
inductive PyVal where
  | none
  | bool (b : Bool)
  | int (n : Int)
  | str (s : String)
  | list (xs : List PyVal)
  | dict (kvs : List (String × PyVal))

mutual

/-- Python `repr` for `PyVal` (string quoting is simplified: no escape
sequences inside the quotes — no theorem below depends on the rendering of
containers or quoted strings). -/
def pyRepr : PyVal → String
  | .none => "None"
  | .bool true => "True"
  | .bool false => "False"
  | .int n => toString n
  | .str s => "\x27" ++ s ++ "\x27"
  | .list xs => "[" ++ pyReprSeq xs ++ "]"
  | .dict kvs => "\x7b" ++ pyReprPairs kvs ++ "\x7d"

/-- Comma-separated `repr` of list elements. -/
def pyReprSeq : List PyVal → String
  | [] => ""
  | [x] => pyRepr x
  | x :: y :: rest => pyRepr x ++ ", " ++ pyReprSeq (y :: rest)

/-- Comma-separated `repr` of dict items. -/
def pyReprPairs : List (String × PyVal) → String
  | [] => ""
  | [(k, v)] => "\x27" ++ k ++ "\x27: " ++ pyRepr v
  | (k, v) :: kv :: rest =>
      "\x27" ++ k ++ "\x27: " ++ pyRepr v ++ ", " ++ pyReprPairs (kv :: rest)

end

/-- Python `str()` as used by f-string interpolation: identity on strings,
`repr` otherwise. -/
def pyStr : PyVal → String
  | .str s => s
  | v => pyRepr v

/-- Python truthiness (`if step_id:`): `None`, `False`, `0`, `""`, `[]`
and `{}` are falsy. -/
def pyTruthy : PyVal → Bool
  | .none => false
  | .bool b => b
  | .int n => n != 0
  | .str s => !s.isEmpty
  | .list xs => !xs.isEmpty
  | .dict kvs => !kvs.isEmpty

/-- Python `payload.get(key, default)`: dict lookup with a default, and
`AttributeError` when the receiver is not a mapping. -/
def pyGet (v : PyVal) (key : String) (default : PyVal) : Except PyErr PyVal :=
  match v with
  | .dict kvs => .ok ((kvs.lookup key).getD default)
  | _ => .error .attributeError

/-- Python iteration (`for x in v`): lists yield elements, strings yield
one-character strings, dicts yield their keys; other values raise
`TypeError`. -/
def pyIter (v : PyVal) : Except PyErr (List PyVal) :=
  match v with
  | .list xs => .ok xs
  | .str s => .ok (s.data.map (fun c => .str (String.singleton c)))
  | .dict kvs => .ok (kvs.map (fun kv => .str kv.1))
  | _ => .error .typeError

/-- Python `d[k] = v` on an insertion-ordered dict modelled as an
association list: replace in place if the key exists, else append. -/
def dictInsert (d : List (String × α)) (k : String) (v : α) : List (String × α) :=
  match d with
  | [] => [(k, v)]
  | (k0, v0) :: rest => if k0 = k then (k, v) :: rest else (k0, v0) :: dictInsert rest k v

/-- Python `del d[k]`: remove the (unique) binding of `k`, if present. -/
def dictRemove (d : List (String × α)) (k : String) : List (String × α) :=
  match d with
  | [] => []
  | (k0, v0) :: rest => if k0 = k then rest else (k0, v0) :: dictRemove rest k

/-- Python `d.update(new)`: insert every binding of `new`, in order. -/
def dictUpdate (d new : List (String × α)) : List (String × α) :=
  new.foldl (fun acc kv => dictInsert acc kv.1 kv.2) d

/-- Substring test on character lists, embedding Python `needle in hay`. -/
def isSubList : List Char → List Char → Bool
  | needle, [] => needle.isEmpty
  | needle, hay@(_ :: t) => needle.isPrefixOf hay || isSubList needle t

/-- Python `needle in hay` for strings: substring containment. -/
def strContainsSub (hay needle : String) : Bool :=
  isSubList needle.data hay.data

/-- ASCII lowercasing of one character (Python `str.lower`, restricted to
the ASCII range — the alphabet of the indexed data and queries). -/
def lowerChar (c : Char) : Char :=
  if 65 ≤ c.toNat ∧ c.toNat ≤ 90 then Char.ofNat (c.toNat + 32) else c

/-- Embedding of Python `s.lower()`. -/
def strLower (s : String) : String :=
  ⟨s.data.map lowerChar⟩

/-- Python slicing `l[:k]` with arbitrary integer `k`: a non-negative bound
takes a prefix; a negative bound removes the last `|k|` elements. -/
def pySliceTake (l : List α) (k : Int) : List α :=
  if 0 ≤ k then l.take k.toNat else l.take (l.length - (-k).toNat)

/-- Entry of `procedures_index`, as written by `index_procedure`:
`{"id": …, "title": …, "searchable_text": …, "last_updated": …, "data": …}`. -/
structure ProcEntry where
  id : Int
  title : PyVal
  searchable_text : String
  last_updated : String
  data : PyVal

/-- Entry of `steps_index`, as written by `index_step` (the `step_id` is
stored exactly as extracted from the payload). -/
structure StepEntry where
  procedure_id : Int
  step_id : PyVal
  title : PyVal
  searchable_text : String
  last_updated : String
  data : PyVal

/-- Entry of `requirements_index`, as written by `index_requirements`. -/
structure ReqEntry where
  procedure_id : Int
  last_updated : String
  data : PyVal

/-- Entry of `institutions_index`, as written by `index_institution`. -/
structure InstEntry where
  id : Int
  name : PyVal
  searchable_text : String
  last_updated : String
  data : PyVal

/-- Contents of the four index files in `index_dir` (`procedures.json`,
`steps.json`, `requirements.json`, `institutions.json`); `Option.none`
models a missing file.  Each present file holds the JSON value that
`_save_indices` serialized. -/
structure Store where
  procedures : Option PyVal
  steps : Option PyVal
  requirements : Option PyVal
  institutions : Option PyVal

/-- State of one `SearchIndex` instance: the four in-memory maps and the
on-disk store. -/
structure SearchIndexState where
  procedures_index : List (String × ProcEntry)
  steps_index : List (String × StepEntry)
  requirements_index : List (String × ReqEntry)
  institutions_index : List (String × InstEntry)
  store : Store

/-- Serialization of a procedure entry to the JSON object written to
`procedures.json` (the dict literal of `index_procedure`). -/
def encodeProcEntry (e : ProcEntry) : PyVal :=
  .dict [("id", .int e.id), ("title", e.title),
         ("searchable_text", .str e.searchable_text),
         ("last_updated", .str e.last_updated), ("data", e.data)]

/-- Reading a procedure entry back from its JSON object. -/
def decodeProcEntry (v : PyVal) : Option ProcEntry :=
  match v with
  | .dict kvs =>
    match kvs.lookup "id", kvs.lookup "title", kvs.lookup "searchable_text",
          kvs.lookup "last_updated", kvs.lookup "data" with
    | some (.int i), some t, some (.str st), some (.str lu), some d =>
        some ⟨i, t, st, lu, d⟩
    | _, _, _, _, _ => Option.none
  | _ => Option.none

/-- Serialization of a step entry (the dict literal of `index_step`). -/
def encodeStepEntry (e : StepEntry) : PyVal :=
  .dict [("procedure_id", .int e.procedure_id), ("step_id", e.step_id),
         ("title", e.title), ("searchable_text", .str e.searchable_text),
         ("last_updated", .str e.last_updated), ("data", e.data)]

/-- Reading a step entry back from its JSON object. -/
def decodeStepEntry (v : PyVal) : Option StepEntry :=
  match v with
  | .dict kvs =>
    match kvs.lookup "procedure_id", kvs.lookup "step_id", kvs.lookup "title",
          kvs.lookup "searchable_text", kvs.lookup "last_updated", kvs.lookup "data" with
    | some (.int p), some sid, some t, some (.str st), some (.str lu), some d =>
        some ⟨p, sid, t, st, lu, d⟩
    | _, _, _, _, _, _ => Option.none
  | _ => Option.none

/-- Serialization of a requirements entry (the dict literal of
`index_requirements`). -/
def encodeReqEntry (e : ReqEntry) : PyVal :=
  .dict [("procedure_id", .int e.procedure_id),
         ("last_updated", .str e.last_updated), ("data", e.data)]

/-- Reading a requirements entry back from its JSON object. -/
def decodeReqEntry (v : PyVal) : Option ReqEntry :=
  match v with
  | .dict kvs =>
    match kvs.lookup "procedure_id", kvs.lookup "last_updated", kvs.lookup "data" with
    | some (.int p), some (.str lu), some d => some ⟨p, lu, d⟩
    | _, _, _ => Option.none
  | _ => Option.none

/-- Serialization of an institution entry (the dict literal of
`index_institution`). -/
def encodeInstEntry (e : InstEntry) : PyVal :=
  .dict [("id", .int e.id), ("name", e.name),
         ("searchable_text", .str e.searchable_text),
         ("last_updated", .str e.last_updated), ("data", e.data)]

/-- Reading an institution entry back from its JSON object. -/
def decodeInstEntry (v : PyVal) : Option InstEntry :=
  match v with
  | .dict kvs =>
    match kvs.lookup "id", kvs.lookup "name", kvs.lookup "searchable_text",
          kvs.lookup "last_updated", kvs.lookup "data" with
    | some (.int i), some n, some (.str st), some (.str lu), some d =>
        some ⟨i, n, st, lu, d⟩
    | _, _, _, _, _ => Option.none
  | _ => Option.none

/-- A whole index map serialized as one JSON object, as `json.dumps(index)`
writes it. -/
def encodeIndexMap (enc : α → PyVal) (m : List (String × α)) : PyVal :=
  .dict (m.map (fun kv => (kv.1, enc kv.2)))

/-- Entrywise decoding of a serialized index map; fails on values not of the
shape `_save_indices` writes. -/
def decodeEntries (dec : PyVal → Option α) :
    List (String × PyVal) → Option (List (String × α))
  | [] => some []
  | kv :: rest =>
    match dec kv.2, decodeEntries dec rest with
    | some e, some es => some ((kv.1, e) :: es)
    | _, _ => Option.none

/-- Decoding a whole serialized index map. -/
def decodeIndexMap (dec : PyVal → Option α) (v : PyVal) :
    Option (List (String × α)) :=
  match v with
  | .dict kvs => decodeEntries dec kvs
  | _ => Option.none

/-- Embedding of `SearchIndex._save_indices`: writes the JSON serialization
of all four in-memory maps to the four files of the store.  The disk write
is modelled as succeeding (`_save_indices` catches and logs I/O errors and
never raises, so the caller-visible behaviour is unchanged either way). -/
def saveIndices (s : SearchIndexState) : SearchIndexState :=
  { s with store :=
      { procedures := some (encodeIndexMap encodeProcEntry s.procedures_index)
        steps := some (encodeIndexMap encodeStepEntry s.steps_index)
        requirements := some (encodeIndexMap encodeReqEntry s.requirements_index)
        institutions := some (encodeIndexMap encodeInstEntry s.institutions_index) } }

/-- Loading one index file in `_load_indices`: a missing file is skipped,
otherwise `indices[name].update(json.loads(content))`.  The decode step
reflects that the files this model reads were written by `saveIndices`;
`decode` cannot fail on them (proved below for round trips). -/
def loadOne (dec : PyVal → Option (List (String × α)))
    (file : Option PyVal) (current : List (String × α)) : List (String × α) :=
  match file with
  | Option.none => current
  | some content =>
    match dec content with
    | some m => dictUpdate current m
    | Option.none => current

/-- Embedding of `SearchIndex._load_indices`: update each in-memory map
with the contents of its file, when present. -/
def loadIndices (s : SearchIndexState) : SearchIndexState :=
  { s with
    procedures_index :=
      loadOne (decodeIndexMap decodeProcEntry) s.store.procedures s.procedures_index
    steps_index :=
      loadOne (decodeIndexMap decodeStepEntry) s.store.steps s.steps_index
    requirements_index :=
      loadOne (decodeIndexMap decodeReqEntry) s.store.requirements s.requirements_index
    institutions_index :=
      loadOne (decodeIndexMap decodeInstEntry) s.store.institutions s.institutions_index }

/-- A fresh `SearchIndex` instance over a given on-disk store, after
`init()` (empty in-memory maps, then `_load_indices`). -/
def initFresh (st : Store) : SearchIndexState :=
  loadIndices { procedures_index := [], steps_index := [],
                requirements_index := [], institutions_index := [], store := st }

/-- Embedding of `SearchIndex.index_step`: extracts `title` and
`description` permissively, stores the entry under the key
`f"{procedure_id}_{step_id}"` — and does **not** call `_save_indices`.
On a non-mapping `step_data` the `.get` call raises and the state is
unchanged. -/
def index_step (s : SearchIndexState) (procedure_id : Int) (step_id : PyVal)
    (step_data : PyVal) (now : String) : SearchIndexState × Option PyErr :=
  match pyGet step_data "title" (.str ""), pyGet step_data "description" (.str "") with
  | .ok title, .ok description =>
    let searchable_text := strLower (pyStr title ++ " " ++ pyStr description)
    let key := toString procedure_id ++ "_" ++ pyStr step_id
    let entry : StepEntry := ⟨procedure_id, step_id, title, searchable_text, now, step_data⟩
    ({ s with steps_index := dictInsert s.steps_index key entry }, Option.none)
  | _, _ => (s, some .attributeError)

/-- The inner loop of `index_procedure` over one block's `steps` list:
index each step whose `id` is truthy; an exception from a malformed step
propagates, keeping the state mutated so far. -/
def indexStepsList (s : SearchIndexState) (procedure_id : Int)
    (steps : List PyVal) (now : String) : SearchIndexState × Option PyErr :=
  match steps with
  | [] => (s, Option.none)
  | step :: rest =>
    match pyGet step "id" .none with
    | .error e => (s, some e)
    | .ok step_id =>
      if pyTruthy step_id then
        match index_step s procedure_id step_id step now with
        | (s1, Option.none) => indexStepsList s1 procedure_id rest now
        | (s1, some e) => (s1, some e)
      else indexStepsList s procedure_id rest now

/-- The outer loop of `index_procedure` over the payload's `blocks`. -/
def indexBlocksList (s : SearchIndexState) (procedure_id : Int)
    (blocks : List PyVal) (now : String) : SearchIndexState × Option PyErr :=
  match blocks with
  | [] => (s, Option.none)
  | block :: rest =>
    match pyGet block "steps" (.list []) with
    | .error e => (s, some e)
    | .ok stepsVal =>
      match pyIter stepsVal with
      | .error e => (s, some e)
      | .ok steps =>
        match indexStepsList s procedure_id steps now with
        | (s1, Option.none) => indexBlocksList s1 procedure_id rest now
        | (s1, some e) => (s1, some e)

/-- Embedding of `SearchIndex.index_procedure`: permissive extraction of
`title`/`description`/`additionalInfo` (empty-string defaults), entry
stored under `str(procedure_id)`, the block→step walk, then
`_save_indices`.  A non-mapping payload raises `AttributeError` at the
first `.get` with nothing indexed; an exception from the block walk
propagates after the procedure entry was stored, skipping the save. -/
def index_procedure (s : SearchIndexState) (procedure_id : Int)
    (procedure_data : PyVal) (now : String) : SearchIndexState × Option PyErr :=
  match pyGet procedure_data "title" (.str ""),
        pyGet procedure_data "description" (.str ""),
        pyGet procedure_data "additionalInfo" (.str "") with
  | .ok title, .ok description, .ok additional_info =>
    let searchable_text :=
      strLower (pyStr title ++ " " ++ pyStr description ++ " " ++ pyStr additional_info)
    let entry : ProcEntry := ⟨procedure_id, title, searchable_text, now, procedure_data⟩
    let pidx := dictInsert s.procedures_index (toString procedure_id) entry
    let s1 := { s with procedures_index := pidx }
    match pyGet procedure_data "blocks" (.list []) with
    | .error e => (s1, some e)
    | .ok blocksVal =>
      match pyIter blocksVal with
      | .error e => (s1, some e)
      | .ok blocks =>
        match indexBlocksList s1 procedure_id blocks now with
        | (s2, Option.none) => (saveIndices s2, Option.none)
        | (s2, some e) => (s2, some e)
  | _, _, _ => (s, some .attributeError)

/-- Embedding of `SearchIndex.index_requirements`: stores the payload under
`str(procedure_id)` without field extraction, then `_save_indices`; it
performs no `.get` and cannot raise. -/
def index_requirements (s : SearchIndexState) (procedure_id : Int)
    (requirements_data : PyVal) (now : String) : SearchIndexState :=
  let entry : ReqEntry := ⟨procedure_id, now, requirements_data⟩
  let ridx := dictInsert s.requirements_index (toString procedure_id) entry
  saveIndices { s with requirements_index := ridx }

/-- Embedding of `SearchIndex.index_institution`: permissive extraction of
`name`/`description`, entry stored under `str(institution_id)`, then
`_save_indices`. -/
def index_institution (s : SearchIndexState) (institution_id : Int)
    (institution_data : PyVal) (now : String) : SearchIndexState × Option PyErr :=
  match pyGet institution_data "name" (.str ""),
        pyGet institution_data "description" (.str "") with
  | .ok name, .ok description =>
    let searchable_text := strLower (pyStr name ++ " " ++ pyStr description)
    let entry : InstEntry := ⟨institution_id, name, searchable_text, now, institution_data⟩
    let iidx := dictInsert s.institutions_index (toString institution_id) entry
    (saveIndices { s with institutions_index := iidx }, Option.none)
  | _, _ => (s, some .attributeError)

/-- One row of `search_procedures` output:
`{"id": …, "title": …, "score": 1.0}`. -/
structure SearchResult where
  id : Int
  title : PyVal
  score : ℚ

/-- The filter loop of `search_procedures`: every entry whose
`searchable_text` contains the lowercased query, in index iteration order,
with the constant score `1.0`. -/
def searchMatches (s : SearchIndexState) (query : String) : List SearchResult :=
  let q := strLower query
  (s.procedures_index.filter
      (fun kv => strContainsSub kv.2.searchable_text q)).map
    (fun kv => ⟨kv.2.id, kv.2.title, 1⟩)

/-- Stable insertion of a result into a list sorted by descending score
(an element is placed before the first strictly smaller score, after equal
ones it was inserted behind). -/
def sortInsertDesc (x : SearchResult) : List SearchResult → List SearchResult
  | [] => [x]
  | y :: ys => if x.score < y.score then y :: sortInsertDesc x ys else x :: y :: ys

/-- Embedding of `results.sort(key=lambda x: x["score"], reverse=True)`:
Python `list.sort` is stable, and all stable sorts with the same key
produce the same list, so a stable insertion sort is used. -/
def sortByScoreDesc (rs : List SearchResult) : List SearchResult :=
  match rs with
  | [] => []
  | r :: rest => sortInsertDesc r (sortByScoreDesc rest)

/-- Embedding of `SearchIndex.search_procedures`: filter, stable sort by
descending score, then the Python slice `results[:limit]`. -/
def search_procedures (s : SearchIndexState) (query : String) (limit : Int) :
    List SearchResult :=
  pySliceTake (sortByScoreDesc (searchMatches s query)) limit

/-!
Subscription manager (`utils/subscriptions.py`).

`_matches_pattern` builds a regex string from the subscription pattern via
`re.escape` followed by three **literal** `str.replace` calls, then runs
`re.match`.  The embedding reproduces each stage: the Python 3.7+
`re.escape` character set, left-to-right non-overlapping literal
replacement, and a matcher for the restricted regex language the pipeline
can produce (literal characters, escaped characters, `.*`, `[^/]*`,
`[^/]+`, a leading `^` and a final `$`).  `re.match` anchors at the start;
`$` matches at the end of the string or before a trailing newline; `.`
does not match a newline (no `re.DOTALL`).
-/

/-- The characters Python 3.7+ `re.escape` prefixes with a backslash. -/
def pySpecials : List Char :=
  ['(', ')', '[', ']', '\x7b', '\x7d', '?', '*', '+', '-', '|', '^', '$',
   '\\', '.', '&', '~', '#', ' ', '\t', '\n', '\r', '\x0b', '\x0c']

/-- Embedding of `re.escape` (Python 3.7+ semantics). -/
def reEscape (s : String) : String :=
  ⟨s.data.flatMap (fun c => if c ∈ pySpecials then ['\\', c] else [c])⟩

/-- Left-to-right non-overlapping literal replacement on character lists,
with explicit fuel (consumed once per scan step; `s.length` fuel always
suffices for a non-empty `old`). -/
def replaceAux (old new : List Char) : Nat → List Char → List Char
  | _, [] => []
  | 0, s => s
  | fuel + 1, s@(c :: rest) =>
    if old ≠ [] ∧ old.isPrefixOf s then
      new ++ replaceAux old new fuel (s.drop old.length)
    else
      c :: replaceAux old new fuel rest

/-- Embedding of Python `s.replace(old, new)` for non-empty `old` (each
call site below passes a non-empty literal). -/
def strReplace (s old new : String) : String :=
  ⟨replaceAux old.data new.data s.data.length s.data⟩

/-- The regex source string `_matches_pattern` builds:
`"^" + re.escape(pattern).replace("\\{[^}]+\\}", "[^/]+")
.replace("\\*\\*", ".*").replace("\\*", "[^/]*") + "$"`.
Note the `.replace` calls are literal string replacement, not regex
substitution. -/
def buildPatternRegex (pattern : String) : String :=
  "^" ++
    strReplace
      (strReplace
        (strReplace (reEscape pattern) "\\\x7b[^\x7d]+\\\x7d" "[^/]+")
        "\\*\\*" ".*")
      "\\*" "[^/]*" ++
  "$"

/-- Tokens of the restricted regex language produced by
`buildPatternRegex`: a literal character, `.*`, `[^/]*`, `[^/]+`, and the
final `$` anchor. -/
inductive RTok where
  | lit (c : Char)
  | anyStar
  | nonSepStar
  | nonSepPlus
  | endTok
deriving DecidableEq

/-- Regex metacharacters that are not plain literals when unescaped; a bare
occurrence outside the recognized token forms makes the restricted parser
fail. -/
def regexMeta : List Char :=
  ['.', '*', '+', '?', '(', ')', '[', ']', '\x7b', '\x7d', '|', '^', '$', '\\']

/-- Parser for the restricted regex language (body after the leading `^`):
`\c` is a literal, `[^/]*` and `[^/]+` are the non-separator wildcards,
`.*` the any-wildcard, a final `$` the end anchor; a bare metacharacter in
any other position is not part of the language and fails the parse. -/
def parseToks : List Char → Option (List RTok)
  | [] => some []
  | '\\' :: c :: rest => (parseToks rest).map (fun ts => RTok.lit c :: ts)
  | '[' :: '^' :: '/' :: ']' :: '*' :: rest =>
      (parseToks rest).map (fun ts => RTok.nonSepStar :: ts)
  | '[' :: '^' :: '/' :: ']' :: '+' :: rest =>
      (parseToks rest).map (fun ts => RTok.nonSepPlus :: ts)
  | '.' :: '*' :: rest => (parseToks rest).map (fun ts => RTok.anyStar :: ts)
  | ['$'] => some [RTok.endTok]
  | c :: rest =>
      if c ∈ regexMeta then Option.none
      else (parseToks rest).map (fun ts => RTok.lit c :: ts)

/-- Matcher for the token language, anchored at the start as `re.match`
is: `.*` consumes any characters except newline, `[^/]*` any characters
except `/`, `$` accepts the end of input or a single trailing newline, and
an exhausted token list accepts any remaining input (an unanchored
`re.match` only requires a prefix match).  The recursion is driven by
explicit fuel consumed once per call, so it stays kernel-computable; every
call either shortens the input or shortens the token list at equal input,
so any fuel above `(toks.length + 1) * (cs.length + 1)` is never
exhausted. -/
def tokensMatchAux : Nat → List RTok → List Char → Bool
  | 0, _, _ => false
  | _ + 1, [], _ => true
  | _ + 1, RTok.endTok :: _, cs => decide (cs = [] ∨ cs = ['\n'])
  | _ + 1, RTok.lit _ :: _, [] => false
  | fuel + 1, RTok.lit c :: rest, d :: ds => c == d && tokensMatchAux fuel rest ds
  | fuel + 1, RTok.anyStar :: rest, [] => tokensMatchAux fuel rest []
  | fuel + 1, RTok.anyStar :: rest, d :: ds =>
      tokensMatchAux fuel rest (d :: ds) ||
        (d != '\n' && tokensMatchAux fuel (RTok.anyStar :: rest) ds)
  | fuel + 1, RTok.nonSepStar :: rest, [] => tokensMatchAux fuel rest []
  | fuel + 1, RTok.nonSepStar :: rest, d :: ds =>
      tokensMatchAux fuel rest (d :: ds) ||
        (d != '/' && tokensMatchAux fuel (RTok.nonSepStar :: rest) ds)
  | _ + 1, RTok.nonSepPlus :: _, [] => false
  | fuel + 1, RTok.nonSepPlus :: rest, d :: ds =>
      d != '/' && tokensMatchAux fuel (RTok.nonSepStar :: rest) ds

/-- The matcher at its sufficient fuel bound. -/
def tokensMatch (toks : List RTok) (cs : List Char) : Bool :=
  tokensMatchAux ((toks.length + 1) * (cs.length + 1)) toks cs

/-- Strip the leading `^` (a no-op for `re.match`) and parse the rest. -/
def reParse (pat : String) : Option (List RTok) :=
  match pat.data with
  | '^' :: t => parseToks t
  | t => parseToks t

/-- Embedding of `bool(re.match(pat, input))` for the restricted language.
The `Option.none` parser branch would correspond to `re.error`; the
theorem `pattern_regex_always_compiles` below shows it is unreachable for
strings built by `buildPatternRegex`. -/
def reMatchBool (pat input : String) : Bool :=
  match reParse pat with
  | Option.none => false
  | some toks => tokensMatch toks input.data

/-- Embedding of `SubscriptionManager._matches_pattern`. -/
def matches_pattern (resource_id pattern : String) : Bool :=
  reMatchBool (buildPatternRegex pattern) resource_id

/-- Delivery-context handle of a subscriber (an abstract identifier; the
actual context object lives in the excluded protocol-server collaborator). -/
abbrev Ctx := Nat

/-- Embedding of the `ResourceSubscription` dataclass.  Timestamps are
abstract clock ticks. -/
structure ResourceSubscription where
  pattern : String
  client_id : String
  created_at : Nat
  last_notified : Nat
  context : Ctx
deriving DecidableEq

/-- The `_subscriptions` map: pattern → subscriber set (Python uses
`Set[ResourceSubscription]`, modelled as a list; the set is iterated and
filtered only). -/
abbrev Registry := List (String × List ResourceSubscription)

/-- Whether `ResourceSubscription` instances are hashable.  The class is
declared `@dataclass` with the default options `eq=True, frozen=False`, so
Python sets `__hash__ = None` on it and its instances are **unhashable**. -/
def resourceSubscriptionHashable : Bool := false

/-- Python `s.add(x)`: raises `TypeError` when the element type is
unhashable, otherwise adds the element if absent. -/
def pySetAdd [DecidableEq α] (hashable : Bool) (s : List α) (x : α) :
    Except PyErr (List α) :=
  if hashable then .ok (if x ∈ s then s else s ++ [x]) else .error .typeError

/-- Embedding of `SubscriptionManager.subscribe`: ensure the pattern
bucket exists, drop any existing subscription of this client, build the
new `ResourceSubscription` with both timestamps set to `now`, and
`add` it to the bucket set.  The returned registry is the state after the
call, including mutations made before an exception; the `Option PyErr` is
the exception the call raises, if any. -/
def subscribe (reg : Registry) (pattern client_id : String) (ctx : Ctx)
    (now : Nat) : Registry × Option PyErr :=
  let reg1 := if (reg.lookup pattern).isSome then reg else reg ++ [(pattern, [])]
  let bucket := ((reg1.lookup pattern).getD []).filter
    (fun sub => sub.client_id ≠ client_id)
  let reg2 := dictInsert reg1 pattern bucket
  let subscription : ResourceSubscription := ⟨pattern, client_id, now, now, ctx⟩
  match pySetAdd resourceSubscriptionHashable bucket subscription with
  | .error e => (reg2, some e)
  | .ok bucket1 => (dictInsert reg2 pattern bucket1, Option.none)

/-- Embedding of `SubscriptionManager.unsubscribe`: filter the client out
of the bucket, then prune the pattern if the bucket became empty; a no-op
when the pattern is absent. -/
def unsubscribe (reg : Registry) (pattern client_id : String) : Registry :=
  match reg.lookup pattern with
  | Option.none => reg
  | some subs =>
    let subs1 := subs.filter (fun sub => sub.client_id ≠ client_id)
    if subs1.isEmpty then dictRemove reg pattern
    else dictInsert reg pattern subs1

/-- Embedding of `SubscriptionManager.unsubscribe_all`: filter the client
out of every bucket, pruning buckets that become empty. -/
def unsubscribe_all (reg : Registry) (client_id : String) : Registry :=
  reg.filterMap (fun b =>
    let subs1 := b.2.filter (fun sub => sub.client_id ≠ client_id)
    if subs1.isEmpty then Option.none else some (b.1, subs1))

/-- Embedding of `SubscriptionManager.get_subscriptions`: the patterns
holding at least one subscription of this client. -/
def get_subscriptions (reg : Registry) (client_id : String) : List String :=
  (reg.filter (fun b => b.2.any (fun sub => sub.client_id = client_id))).map Prod.fst

/-- The per-subscriber body of `notify_update`'s fan-out loop: one
delivery attempt under `try`, with a successful delivery updating
`last_notified` and an exception caught and logged.  Returns the updated
subscription and the attempted client id. -/
def notifyOne (deliver : Ctx → String → PyVal → Option String → Except PyErr Unit)
    (resource_id : String) (content : PyVal) (mime_type : Option String)
    (now : Nat) (sub : ResourceSubscription) : ResourceSubscription × String :=
  match deliver sub.context resource_id content mime_type with
  | .ok _ => ({ sub with last_notified := now }, sub.client_id)
  | .error _ => (sub, sub.client_id)

/-- The inner loop of `notify_update` over one matching bucket. -/
def notifyBucket (deliver : Ctx → String → PyVal → Option String → Except PyErr Unit)
    (resource_id : String) (content : PyVal) (mime_type : Option String)
    (now : Nat) : List ResourceSubscription → List ResourceSubscription × List String
  | [] => ([], [])
  | sub :: rest =>
    let head := notifyOne deliver resource_id content mime_type now sub
    let tail := notifyBucket deliver resource_id content mime_type now rest
    (head.1 :: tail.1, head.2 :: tail.2)

/-- Embedding of `SubscriptionManager.notify_update`: for every pattern in
the registry that matches `resource_id`, attempt delivery to every
subscriber of that pattern.  `deliver` is the external
`context.notify_resource_changed` collaborator; an `.error` outcome is a
raising callback.  Returns the updated registry and the list of client ids
to which delivery was attempted, in iteration order; the function is total
(no exception escapes). -/
def notify_update (reg : Registry) (resource_id : String) (content : PyVal)
    (mime_type : Option String)
    (deliver : Ctx → String → PyVal → Option String → Except PyErr Unit)
    (now : Nat) : Registry × List String :=
  match reg with
  | [] => ([], [])
  | (pattern, subs) :: rest =>
    let tail := notify_update rest resource_id content mime_type deliver now
    if matches_pattern resource_id pattern then
      let b := notifyBucket deliver resource_id content mime_type now subs
      ((pattern, b.1) :: tail.1, b.2 ++ tail.2)
    else
      ((pattern, subs) :: tail.1, tail.2)

/-!
Search properties (claims about `search_procedures`).
-/

/-- Inserting below no strictly larger score leaves the element in front. -/
lemma sortInsertDesc_cons_of_not_lt (x : SearchResult) (l : List SearchResult)
    (h : ∀ r ∈ l, ¬ x.score < r.score) : sortInsertDesc x l = x :: l := by
  cases l with
  | nil => rfl
  | cons y ys => simp [sortInsertDesc, h y (by simp)]

/-- A list whose scores are all equal is left unchanged by the stable
sort (so `results.sort(key=score, reverse=True)` preserves insertion
order on uniformly scored results). -/
lemma sortByScoreDesc_of_const (l : List SearchResult)
    (h : ∀ r ∈ l, r.score = 1) : sortByScoreDesc l = l := by
  induction l with
  | nil => rfl
  | cons x xs ih =>
    have hx : x.score = 1 := h x (by simp)
    have hxs : ∀ r ∈ xs, r.score = 1 := fun r hr => h r (by simp [hr])
    rw [sortByScoreDesc, ih hxs, sortInsertDesc_cons_of_not_lt]
    intro r hr
    rw [hx, hxs r hr]
    exact lt_irrefl 1

/-- Every row the search filter emits carries the constant score `1.0`. -/
lemma searchMatches_score (s : SearchIndexState) (q : String) :
    ∀ r ∈ searchMatches s q, r.score = 1 := by
  intro r hr
  simp only [searchMatches, List.mem_map, List.mem_filter] at hr
  obtain ⟨kv, _, rfl⟩ := hr
  rfl

/-- With a limit at least the number of matches, the slice keeps the whole
match list. -/
lemma search_procedures_eq_matches (s : SearchIndexState) (q : String)
    (limit : Int) (hlim : ((searchMatches s q).length : Int) ≤ limit) :
    search_procedures s q limit = searchMatches s q := by
  have hsort := sortByScoreDesc_of_const _ (searchMatches_score s q)
  have h0 : 0 ≤ limit := le_trans (by positivity) hlim
  rw [search_procedures, hsort, pySliceTake, if_pos h0]
  apply List.take_of_length_le
  omega

/-- C3.  Search containment law: an indexed procedure entry's `id` appears
in `search_procedures(query, limit)` iff the lowercased query is a
substring of the entry's `searchable_text` (for a limit at least the
number of matches and entries whose equal ids carry equal
`searchable_text`), and every returned result has score `1.0`. -/
theorem search_procedures_containment (s : SearchIndexState) (q : String)
    (limit : Int) (kv : String × ProcEntry)
    (hkv : kv ∈ s.procedures_index)
    (hinj : ∀ a ∈ s.procedures_index, ∀ b ∈ s.procedures_index,
      a.2.id = b.2.id → a.2.searchable_text = b.2.searchable_text)
    (hlim : ((searchMatches s q).length : Int) ≤ limit) :
    (kv.2.id ∈ (search_procedures s q limit).map SearchResult.id ↔
      strContainsSub kv.2.searchable_text (strLower q) = true) ∧
    ∀ r ∈ search_procedures s q limit, r.score = 1 := by
  rw [search_procedures_eq_matches s q limit hlim]
  refine ⟨⟨?_, ?_⟩, searchMatches_score s q⟩
  · intro hmem
    rw [List.mem_map] at hmem
    obtain ⟨r, hr, hid⟩ := hmem
    simp only [searchMatches, List.mem_map, List.mem_filter] at hr
    obtain ⟨a, ⟨ham, hap⟩, rfl⟩ := hr
    have hid2 : a.2.id = kv.2.id := hid
    rw [← hinj a ham kv hkv hid2]
    exact hap
  · intro hsub
    have hm : (⟨kv.2.id, kv.2.title, 1⟩ : SearchResult) ∈ searchMatches s q := by
      simp only [searchMatches]
      exact List.mem_map_of_mem _ (List.mem_filter.mpr ⟨hkv, hsub⟩)
    exact List.mem_map_of_mem SearchResult.id hm

/-- Concrete procedure entry used by witnesses. -/
def procBusiness : ProcEntry :=
  ⟨123, .str "Business Registration",
   "business registration register a new business required for all new companies",
   "t0", .dict []⟩

/-- Second concrete procedure entry used by witnesses. -/
def procTax : ProcEntry :=
  ⟨456, .str "Tax Filing",
   "tax filing file annual taxes required for all businesses", "t0", .dict []⟩

/-- An on-disk store with none of the four files present. -/
def emptyStore : Store :=
  ⟨Option.none, Option.none, Option.none, Option.none⟩

/-- Concrete index state with two procedures, used by witnesses. -/
def sampleIndexState : SearchIndexState :=
  ⟨[("123", procBusiness), ("456", procTax)], [], [], [], emptyStore⟩

/-- Witness for C3 at a concrete state and query. -/
theorem search_procedures_containment_witness :
    ((("123", procBusiness) ∈ sampleIndexState.procedures_index) ∧
      ((searchMatches sampleIndexState "business").length : Int) ≤ 5) ∧
    ((("123", procBusiness).2.id ∈
        (search_procedures sampleIndexState "business" 5).map SearchResult.id ↔
      strContainsSub ("123", procBusiness).2.searchable_text (strLower "business") = true) ∧
      ∀ r ∈ search_procedures sampleIndexState "business" 5, r.score = 1) :=
  ⟨⟨by simp [sampleIndexState], by decide⟩,
   search_procedures_containment sampleIndexState "business" 5 ("123", procBusiness)
     (by simp [sampleIndexState])
     (by
        intro a ha b hb hid
        simp only [sampleIndexState, List.mem_cons, List.mem_singleton,
          List.not_mem_nil, or_false] at ha hb
        rcases ha with rfl | rfl <;> rcases hb with rfl | rfl <;>
          simp_all [procBusiness, procTax])
     (by decide)⟩

/-- C10.  A negative `limit` is passed straight to the Python slice
`results[:limit]`: no exception, no validation — the result is the full
match list with its last `|limit|` elements removed. -/
theorem search_procedures_negative_limit (s : SearchIndexState) (q : String)
    (n : Int) (h : n < 0) :
    search_procedures s q n =
      (searchMatches s q).take ((searchMatches s q).length - n.natAbs) := by
  have hsort := sortByScoreDesc_of_const _ (searchMatches_score s q)
  rw [search_procedures, hsort, pySliceTake, if_neg (by omega)]
  congr 1
  omega

/-- Witness for C10 at a concrete state and `limit = -1`. -/
theorem search_procedures_negative_limit_witness :
    ((-1 : Int) < 0) ∧
    search_procedures sampleIndexState "business" (-1) =
      (searchMatches sampleIndexState "business").take
        ((searchMatches sampleIndexState "business").length - (-1 : Int).natAbs) :=
  ⟨by decide,
   search_procedures_negative_limit sampleIndexState "business" (-1) (by decide)⟩

/-!
Malformed-payload behaviour and persistence-per-operation (claims about
`index_procedure` / `index_institution` / `index_step` /
`index_requirements`).
-/

/-- A `SearchIndex` instance with empty maps over an empty store. -/
def emptyIndexState : SearchIndexState :=
  ⟨[], [], [], [], emptyStore⟩

/-- The store an operation would leave behind if it serialized the current
in-memory index set (what `_save_indices` writes from state `s`). -/
def storeOf (s : SearchIndexState) : Store :=
  (saveIndices s).store

/-- `index_step` touches only `steps_index`. -/
lemma index_step_procedures (s : SearchIndexState) (pid : Int)
    (sid sdata : PyVal) (now : String) :
    (index_step s pid sid sdata now).1.procedures_index = s.procedures_index := by
  unfold index_step
  split <;> rfl

/-- The step loop of `index_procedure` never touches `procedures_index`. -/
lemma indexStepsList_procedures (pid : Int) (now : String) :
    ∀ (steps : List PyVal) (s : SearchIndexState),
      (indexStepsList s pid steps now).1.procedures_index = s.procedures_index := by
  intro steps
  induction steps with
  | nil => intro s; rfl
  | cons step rest ih =>
    intro s
    unfold indexStepsList
    cases h1 : pyGet step "id" PyVal.none with
    | error e => rfl
    | ok step_id =>
      by_cases h2 : pyTruthy step_id
      · simp only [h2, if_true]
        rcases h3 : index_step s pid step_id step now with ⟨s1, err⟩
        have hp : s1.procedures_index = s.procedures_index := by
          have := index_step_procedures s pid step_id step now
          rw [h3] at this
          exact this
        cases err with
        | none => simp only [h3]; rw [ih s1, hp]
        | some e => simp only [h3, hp]
      · simp only [h2, if_false]
        exact ih s

/-- The block loop of `index_procedure` never touches `procedures_index`. -/
lemma indexBlocksList_procedures (pid : Int) (now : String) :
    ∀ (blocks : List PyVal) (s : SearchIndexState),
      (indexBlocksList s pid blocks now).1.procedures_index = s.procedures_index := by
  intro blocks
  induction blocks with
  | nil => intro s; rfl
  | cons block rest ih =>
    intro s
    unfold indexBlocksList
    cases h1 : pyGet block "steps" (.list []) with
    | error e => rfl
    | ok stepsVal =>
      dsimp only
      cases h2 : pyIter stepsVal with
      | error e => rfl
      | ok steps =>
        dsimp only
        rcases h3 : indexStepsList s pid steps now with ⟨s1, err⟩
        have hp := indexStepsList_procedures pid now steps s
        rw [h3] at hp
        cases err with
        | none => exact (ih s1).trans hp
        | some e => exact hp

/-- Shape of `index_procedure`'s tail after the block walk: the result's
`procedures_index` is that of the state entering the walk (the walk and
the save only touch other fields). -/
lemma indexBlocks_save_procedures (s1 : SearchIndexState) (pid : Int)
    (blocks : List PyVal) (now : String) :
    (match indexBlocksList s1 pid blocks now with
      | (s2, Option.none) => (saveIndices s2, (Option.none : Option PyErr))
      | (s2, some e) => (s2, some e)).1.procedures_index = s1.procedures_index := by
  rcases h : indexBlocksList s1 pid blocks now with ⟨s2, err⟩
  have hp := indexBlocksList_procedures pid now blocks s1
  rw [h] at hp
  cases err with
  | none => exact hp
  | some e => exact hp

/-- Shape of `index_procedure`'s tail after the block walk: on the
non-raising path, the state it returns was produced by `_save_indices`, so
its store is the serialization of its in-memory maps. -/
lemma indexBlocks_save_store (s1 : SearchIndexState) (pid : Int)
    (blocks : List PyVal) (now : String)
    (h : (match indexBlocksList s1 pid blocks now with
          | (s2, Option.none) => (saveIndices s2, (Option.none : Option PyErr))
          | (s2, some e) => (s2, some e)).2 = Option.none) :
    (match indexBlocksList s1 pid blocks now with
      | (s2, Option.none) => (saveIndices s2, (Option.none : Option PyErr))
      | (s2, some e) => (s2, some e)).1.store =
      storeOf (match indexBlocksList s1 pid blocks now with
        | (s2, Option.none) => (saveIndices s2, (Option.none : Option PyErr))
        | (s2, some e) => (s2, some e)).1 := by
  rcases hx : indexBlocksList s1 pid blocks now with ⟨s2, err⟩
  rw [hx] at h
  cases err with
  | none => rfl
  | some e => exact Option.noConfusion h

/-- C5 counterexample: a payload that is not a mapping is **not** indexed
with empty-string fields — `.get` on it raises `AttributeError` and the
state is unchanged. -/
theorem index_procedure_nonmapping_raises :
    index_procedure emptyIndexState 1 (.str "not a mapping") "t0" =
      (emptyIndexState, some PyErr.attributeError) := rfl

/-- C5 amended.  A *mapping* payload lacking `title`/`description`/
`additionalInfo` (resp. `name`/`description`) is indexed with empty-string
defaults (the stored entry carries an empty `title`/`name` and the
searchable text of empty fields); a payload that is not a mapping raises
`AttributeError` instead of being indexed. -/
theorem index_missing_fields_default_empty
    (s : SearchIndexState) (pid iid : Int) (kvs ikvs : List (String × PyVal))
    (now : String)
    (ht : kvs.lookup "title" = Option.none)
    (hd : kvs.lookup "description" = Option.none)
    (ha : kvs.lookup "additionalInfo" = Option.none)
    (hn : ikvs.lookup "name" = Option.none)
    (hdn : ikvs.lookup "description" = Option.none) :
    (index_procedure s pid (.dict kvs) now).1.procedures_index =
      dictInsert s.procedures_index (toString pid)
        ⟨pid, .str "", "  ", now, .dict kvs⟩ ∧
    (index_institution s iid (.dict ikvs) now).1.institutions_index =
      dictInsert s.institutions_index (toString iid)
        ⟨iid, .str "", " ", now, .dict ikvs⟩ ∧
    (index_institution s iid (.dict ikvs) now).2 = Option.none ∧
    ∀ v : PyVal, (∀ kvs2, v ≠ .dict kvs2) →
      index_procedure s pid v now = (s, some PyErr.attributeError) := by
  refine ⟨?_, ?_, ?_, ?_⟩
  · simp only [index_procedure, pyGet, ht, hd, ha, Option.getD_none]
    cases h6 : pyIter ((kvs.lookup "blocks").getD (.list [])) with
    | error e => rfl
    | ok blocks =>
      dsimp only
      exact (indexBlocks_save_procedures _ pid blocks now).trans rfl
  · simp only [index_institution, pyGet, hn, hdn, Option.getD_none]
    rfl
  · simp only [index_institution, pyGet, hn, hdn, Option.getD_none]
  · intro v hv
    cases v with
    | dict kvs2 => exact absurd rfl (hv kvs2)
    | none => rfl
    | bool b => rfl
    | int n => rfl
    | str s0 => rfl
    | list xs => rfl

/-- Witness for C5 (amended) at the empty mapping payload. -/
theorem index_missing_fields_default_empty_witness :
    (([] : List (String × PyVal)).lookup "title" = Option.none ∧
     ([] : List (String × PyVal)).lookup "description" = Option.none ∧
     ([] : List (String × PyVal)).lookup "additionalInfo" = Option.none ∧
     ([] : List (String × PyVal)).lookup "name" = Option.none) ∧
    ((index_procedure emptyIndexState 2 (.dict []) "t1").1.procedures_index =
        dictInsert emptyIndexState.procedures_index (toString (2 : Int))
          ⟨2, .str "", "  ", "t1", .dict []⟩ ∧
      (index_institution emptyIndexState 3 (.dict []) "t1").1.institutions_index =
        dictInsert emptyIndexState.institutions_index (toString (3 : Int))
          ⟨3, .str "", " ", "t1", .dict []⟩ ∧
      (index_institution emptyIndexState 3 (.dict []) "t1").2 = Option.none ∧
      ∀ v : PyVal, (∀ kvs2, v ≠ .dict kvs2) →
        index_procedure emptyIndexState 2 v "t1" =
          (emptyIndexState, some PyErr.attributeError)) :=
  ⟨⟨rfl, rfl, rfl, rfl⟩,
   index_missing_fields_default_empty emptyIndexState 2 3 [] [] "t1"
     rfl rfl rfl rfl rfl⟩

/-- C6 counterexample: `index_step` stores the step entry but leaves the
on-disk store untouched — after the call the store does not hold the
serialized index set. -/
theorem index_step_does_not_persist :
    ((index_step emptyIndexState 1 (.int 2)
        (.dict [("id", .int 2), ("title", .str "Step"), ("description", .str "D")])
        "t0").1.steps_index.length = 1) ∧
    ((index_step emptyIndexState 1 (.int 2)
        (.dict [("id", .int 2), ("title", .str "Step"), ("description", .str "D")])
        "t0").1.store = emptyStore) ∧
    (index_step emptyIndexState 1 (.int 2)
        (.dict [("id", .int 2), ("title", .str "Step"), ("description", .str "D")])
        "t0").1.store ≠
      storeOf (index_step emptyIndexState 1 (.int 2)
        (.dict [("id", .int 2), ("title", .str "Step"), ("description", .str "D")])
        "t0").1 := by
  refine ⟨rfl, rfl, ?_⟩
  intro h
  exact Option.noConfusion (congrArg Store.steps h)

/-- C6 amended.  `index_requirements`, `index_institution` and
`index_procedure` (on their non-raising paths) end with `_save_indices`,
so the store they leave equals the serialization of their final in-memory
index set; `index_step` alone never saves — its store is whatever the
caller's store already was. -/
theorem index_persistence_per_operation :
    (∀ (s : SearchIndexState) (pid : Int) (rdata : PyVal) (now : String),
      (index_requirements s pid rdata now).store =
        storeOf (index_requirements s pid rdata now)) ∧
    (∀ (s : SearchIndexState) (iid : Int) (idata : PyVal) (now : String),
      (index_institution s iid idata now).2 = Option.none →
        (index_institution s iid idata now).1.store =
          storeOf (index_institution s iid idata now).1) ∧
    (∀ (s : SearchIndexState) (pid : Int) (pdata : PyVal) (now : String),
      (index_procedure s pid pdata now).2 = Option.none →
        (index_procedure s pid pdata now).1.store =
          storeOf (index_procedure s pid pdata now).1) ∧
    (∀ (s : SearchIndexState) (pid : Int) (sid sdata : PyVal) (now : String),
      (index_step s pid sid sdata now).1.store = s.store) := by
  refine ⟨fun s pid rdata now => rfl, ?_, ?_, ?_⟩
  · intro s iid idata now h
    cases h1 : pyGet idata "name" (.str "") with
    | error e =>
      simp only [index_institution, h1] at h
      exact Option.noConfusion h
    | ok name =>
      cases h2 : pyGet idata "description" (.str "") with
      | error e =>
        simp only [index_institution, h1, h2] at h
        exact Option.noConfusion h
      | ok description =>
        simp only [index_institution, h1, h2]
        rfl
  · intro s pid pdata now h
    cases h1 : pyGet pdata "title" (.str "") with
    | error e =>
      simp only [index_procedure, h1] at h
      exact Option.noConfusion h
    | ok title =>
      cases h2 : pyGet pdata "description" (.str "") with
      | error e =>
        simp only [index_procedure, h1, h2] at h
        exact Option.noConfusion h
      | ok description =>
        cases h3 : pyGet pdata "additionalInfo" (.str "") with
        | error e =>
          simp only [index_procedure, h1, h2, h3] at h
          exact Option.noConfusion h
        | ok additional_info =>
          cases h4 : pyGet pdata "blocks" (.list []) with
          | error e =>
            simp only [index_procedure, h1, h2, h3, h4] at h
            exact Option.noConfusion h
          | ok blocksVal =>
            cases h5 : pyIter blocksVal with
            | error e =>
              simp only [index_procedure, h1, h2, h3, h4, h5] at h
              exact Option.noConfusion h
            | ok blocks =>
              simp only [index_procedure, h1, h2, h3, h4, h5] at h ⊢
              exact indexBlocks_save_store _ pid blocks now h
  · intro s pid sid sdata now
    unfold index_step
    split <;> rfl

/-- Witness for C6 (amended) at concrete inputs. -/
theorem index_persistence_per_operation_witness :
    ((index_institution emptyIndexState 7 (.dict []) "t2").2 = Option.none ∧
     (index_procedure emptyIndexState 8 (.dict []) "t2").2 = Option.none) ∧
    ((index_requirements emptyIndexState 9 (.dict []) "t2").store =
        storeOf (index_requirements emptyIndexState 9 (.dict []) "t2") ∧
     (index_institution emptyIndexState 7 (.dict []) "t2").1.store =
        storeOf (index_institution emptyIndexState 7 (.dict []) "t2").1 ∧
     (index_procedure emptyIndexState 8 (.dict []) "t2").1.store =
        storeOf (index_procedure emptyIndexState 8 (.dict []) "t2").1 ∧
     (index_step emptyIndexState 1 (.int 2) (.dict []) "t2").1.store =
        emptyIndexState.store) :=
  ⟨⟨rfl, rfl⟩,
   index_persistence_per_operation.1 emptyIndexState 9 (.dict []) "t2",
   index_persistence_per_operation.2.1 emptyIndexState 7 (.dict []) "t2" rfl,
   index_persistence_per_operation.2.2.1 emptyIndexState 8 (.dict []) "t2" rfl,
   index_persistence_per_operation.2.2.2 emptyIndexState 1 (.int 2) (.dict []) "t2"⟩

/-!
Round-trip persistence (save then load into a fresh instance).
-/

/-- Entry-level round trip for procedures. -/
lemma decodeProcEntry_encode (e : ProcEntry) :
    decodeProcEntry (encodeProcEntry e) = some e := by
  cases e; rfl

/-- Entry-level round trip for steps. -/
lemma decodeStepEntry_encode (e : StepEntry) :
    decodeStepEntry (encodeStepEntry e) = some e := by
  cases e; rfl

/-- Entry-level round trip for requirements. -/
lemma decodeReqEntry_encode (e : ReqEntry) :
    decodeReqEntry (encodeReqEntry e) = some e := by
  cases e; rfl

/-- Entry-level round trip for institutions. -/
lemma decodeInstEntry_encode (e : InstEntry) :
    decodeInstEntry (encodeInstEntry e) = some e := by
  cases e; rfl

/-- Map-level round trip from the entry-level one. -/
lemma decodeEntries_encode {α : Type} (dec : PyVal → Option α) (enc : α → PyVal)
    (hre : ∀ a, dec (enc a) = some a) :
    ∀ m : List (String × α),
      decodeEntries dec (m.map (fun kv => (kv.1, enc kv.2))) = some m := by
  intro m
  induction m with
  | nil => rfl
  | cons kv rest ih =>
    simp only [List.map_cons, decodeEntries, hre, ih]

/-- Whole-file round trip. -/
lemma decodeIndexMap_encode {α : Type} (dec : PyVal → Option α) (enc : α → PyVal)
    (hre : ∀ a, dec (enc a) = some a) (m : List (String × α)) :
    decodeIndexMap dec (encodeIndexMap enc m) = some m := by
  simp only [encodeIndexMap, decodeIndexMap]
  exact decodeEntries_encode dec enc hre m

/-- Lookup skips a non-matching head binding. -/
lemma lookup_cons_ne {α : Type} (k k0 : String) (v0 : α)
    (rest : List (String × α)) (h : k ≠ k0) :
    List.lookup k ((k0, v0) :: rest) = List.lookup k rest := by
  have hb : (k == k0) = false := beq_eq_false_iff_ne.mpr h
  simp [List.lookup, hb]

/-- Inserting a fresh key appends it. -/
lemma dictInsert_of_lookup_none {α : Type} :
    ∀ (d : List (String × α)) (k : String) (v : α),
      d.lookup k = Option.none → dictInsert d k v = d ++ [(k, v)] := by
  intro d
  induction d with
  | nil => intro k v _; rfl
  | cons kv rest ih =>
    intro k v h
    rcases kv with ⟨k0, v0⟩
    by_cases hk : k = k0
    · subst hk
      simp [List.lookup] at h
    · rw [lookup_cons_ne k k0 v0 rest hk] at h
      rw [dictInsert, if_neg (fun hh => hk hh.symm), List.cons_append, ih k v h]

/-- A key absent from a map stays absent after appending a binding of a
different key. -/
lemma lookup_append_singleton_none {α : Type} :
    ∀ (d : List (String × α)) (k : String) (kv : String × α),
      d.lookup k = Option.none → k ≠ kv.1 →
      (d ++ [kv]).lookup k = Option.none := by
  intro d
  induction d with
  | nil =>
    intro k kv _ hne
    rcases kv with ⟨k1, v1⟩
    simpa using lookup_cons_ne k k1 v1 [] hne
  | cons a rest ih =>
    intro k kv h hne
    rcases a with ⟨k0, v0⟩
    by_cases hk : k = k0
    · subst hk
      simp [List.lookup] at h
    · rw [lookup_cons_ne k k0 v0 rest hk] at h
      rw [List.cons_append, lookup_cons_ne k k0 v0 (rest ++ [kv]) hk]
      exact ih k kv h hne

/-- `update` of bindings with fresh, pairwise-distinct keys appends them in
order. -/
lemma dictUpdate_fresh {α : Type} :
    ∀ (m acc : List (String × α)),
      (∀ k ∈ m.map Prod.fst, acc.lookup k = Option.none) →
      (m.map Prod.fst).Nodup →
      dictUpdate acc m = acc ++ m := by
  intro m
  induction m with
  | nil => intro acc _ _; simp [dictUpdate]
  | cons kv rest ih =>
    intro acc hacc hnod
    have hk : acc.lookup kv.1 = Option.none := hacc kv.1 (by simp)
    have step : dictInsert acc kv.1 kv.2 = acc ++ [kv] := by
      rw [dictInsert_of_lookup_none acc kv.1 kv.2 hk]
    have hnod' : (rest.map Prod.fst).Nodup := by
      simp only [List.map_cons, List.nodup_cons] at hnod
      exact hnod.2
    have hhead : kv.1 ∉ rest.map Prod.fst := by
      simp only [List.map_cons, List.nodup_cons] at hnod
      exact hnod.1
    have hacc' : ∀ k ∈ rest.map Prod.fst, (acc ++ [kv]).lookup k = Option.none := by
      intro k hkmem
      have hne : k ≠ kv.1 := fun hh => hhead (hh ▸ hkmem)
      exact lookup_append_singleton_none acc k kv (hacc k (by simp [hkmem])) hne
    calc dictUpdate acc (kv :: rest)
        = dictUpdate (dictInsert acc kv.1 kv.2) rest := rfl
      _ = dictUpdate (acc ++ [kv]) rest := by rw [step]
      _ = (acc ++ [kv]) ++ rest := ih (acc ++ [kv]) hacc' hnod'
      _ = acc ++ (kv :: rest) := by simp

/-- `update` into an empty dict of bindings with pairwise-distinct keys is
the identity. -/
lemma dictUpdate_nil_eq {α : Type} (m : List (String × α))
    (h : (m.map Prod.fst).Nodup) : dictUpdate [] m = m := by
  have := dictUpdate_fresh m [] (fun k _ => rfl) h
  simpa using this

/-- C7.  Round-trip persistence: saving the four index maps and loading
them into a fresh `SearchIndex` instance reproduces every map, projected
to key, `id`/`name` (resp. composite ids), `title`, `searchable_text` and
`data` (in fact the full entries, `last_updated` included, coincide). -/
theorem save_load_roundtrip (s : SearchIndexState)
    (h1 : (s.procedures_index.map Prod.fst).Nodup)
    (h2 : (s.steps_index.map Prod.fst).Nodup)
    (h3 : (s.requirements_index.map Prod.fst).Nodup)
    (h4 : (s.institutions_index.map Prod.fst).Nodup) :
    ((initFresh (saveIndices s).store).procedures_index.map
        (fun kv => (kv.1, kv.2.id, kv.2.title, kv.2.searchable_text, kv.2.data)) =
      s.procedures_index.map
        (fun kv => (kv.1, kv.2.id, kv.2.title, kv.2.searchable_text, kv.2.data))) ∧
    ((initFresh (saveIndices s).store).steps_index.map
        (fun kv => (kv.1, kv.2.procedure_id, kv.2.step_id, kv.2.title,
          kv.2.searchable_text, kv.2.data)) =
      s.steps_index.map
        (fun kv => (kv.1, kv.2.procedure_id, kv.2.step_id, kv.2.title,
          kv.2.searchable_text, kv.2.data))) ∧
    ((initFresh (saveIndices s).store).requirements_index.map
        (fun kv => (kv.1, kv.2.procedure_id, kv.2.data)) =
      s.requirements_index.map
        (fun kv => (kv.1, kv.2.procedure_id, kv.2.data))) ∧
    ((initFresh (saveIndices s).store).institutions_index.map
        (fun kv => (kv.1, kv.2.id, kv.2.name, kv.2.searchable_text, kv.2.data)) =
      s.institutions_index.map
        (fun kv => (kv.1, kv.2.id, kv.2.name, kv.2.searchable_text, kv.2.data))) := by
  have hp : (initFresh (saveIndices s).store).procedures_index = s.procedures_index := by
    show loadOne (decodeIndexMap decodeProcEntry)
        (some (encodeIndexMap encodeProcEntry s.procedures_index)) [] =
      s.procedures_index
    simp only [loadOne,
      decodeIndexMap_encode decodeProcEntry encodeProcEntry decodeProcEntry_encode]
    exact dictUpdate_nil_eq s.procedures_index h1
  have hs : (initFresh (saveIndices s).store).steps_index = s.steps_index := by
    show loadOne (decodeIndexMap decodeStepEntry)
        (some (encodeIndexMap encodeStepEntry s.steps_index)) [] = s.steps_index
    simp only [loadOne,
      decodeIndexMap_encode decodeStepEntry encodeStepEntry decodeStepEntry_encode]
    exact dictUpdate_nil_eq s.steps_index h2
  have hr : (initFresh (saveIndices s).store).requirements_index = s.requirements_index := by
    show loadOne (decodeIndexMap decodeReqEntry)
        (some (encodeIndexMap encodeReqEntry s.requirements_index)) [] =
      s.requirements_index
    simp only [loadOne,
      decodeIndexMap_encode decodeReqEntry encodeReqEntry decodeReqEntry_encode]
    exact dictUpdate_nil_eq s.requirements_index h3
  have hi : (initFresh (saveIndices s).store).institutions_index = s.institutions_index := by
    show loadOne (decodeIndexMap decodeInstEntry)
        (some (encodeIndexMap encodeInstEntry s.institutions_index)) [] =
      s.institutions_index
    simp only [loadOne,
      decodeIndexMap_encode decodeInstEntry encodeInstEntry decodeInstEntry_encode]
    exact dictUpdate_nil_eq s.institutions_index h4
  exact ⟨by rw [hp], by rw [hs], by rw [hr], by rw [hi]⟩

/-- Concrete state exercising all four maps, used by the C7 witness. -/
def roundtripState : SearchIndexState :=
  ⟨[("123", procBusiness)],
   [("123_1", ⟨123, .int 1, .str "Step 1", "step 1 description", "t0", .dict []⟩)],
   [("123", ⟨123, "t0", .dict [("items", .list [])]⟩)],
   [("456", ⟨456, .str "Institution", "institution description", "t0", .dict []⟩)],
   emptyStore⟩

/-- Witness for C7 at a concrete populated state. -/
theorem save_load_roundtrip_witness :
    ((roundtripState.procedures_index.map Prod.fst).Nodup ∧
     (roundtripState.steps_index.map Prod.fst).Nodup ∧
     (roundtripState.requirements_index.map Prod.fst).Nodup ∧
     (roundtripState.institutions_index.map Prod.fst).Nodup) ∧
    (((initFresh (saveIndices roundtripState).store).procedures_index.map
        (fun kv => (kv.1, kv.2.id, kv.2.title, kv.2.searchable_text, kv.2.data)) =
      roundtripState.procedures_index.map
        (fun kv => (kv.1, kv.2.id, kv.2.title, kv.2.searchable_text, kv.2.data))) ∧
    ((initFresh (saveIndices roundtripState).store).steps_index.map
        (fun kv => (kv.1, kv.2.procedure_id, kv.2.step_id, kv.2.title,
          kv.2.searchable_text, kv.2.data)) =
      roundtripState.steps_index.map
        (fun kv => (kv.1, kv.2.procedure_id, kv.2.step_id, kv.2.title,
          kv.2.searchable_text, kv.2.data))) ∧
    ((initFresh (saveIndices roundtripState).store).requirements_index.map
        (fun kv => (kv.1, kv.2.procedure_id, kv.2.data)) =
      roundtripState.requirements_index.map
        (fun kv => (kv.1, kv.2.procedure_id, kv.2.data))) ∧
    ((initFresh (saveIndices roundtripState).store).institutions_index.map
        (fun kv => (kv.1, kv.2.id, kv.2.name, kv.2.searchable_text, kv.2.data)) =
      roundtripState.institutions_index.map
        (fun kv => (kv.1, kv.2.id, kv.2.name, kv.2.searchable_text, kv.2.data)))) :=
  ⟨⟨by decide, by decide, by decide, by decide⟩,
   save_load_roundtrip roundtripState (by decide) (by decide) (by decide) (by decide)⟩

/-!
Pattern-matching, subscribe and notification claims.
-/

/-- C1 divergence: the `{id}` placeholder is matched **literally**.
`str.replace` searches for the characters `\{[^}]+\}` verbatim, and
`re.escape` output never contains them, so the placeholder survives
escaped; the identifier `eregulations://procedure/123` therefore does not
match the pattern, while the literal text `eregulations://procedure/{id}`
does. -/
theorem matches_pattern_treats_placeholder_as_literal :
    matches_pattern "eregulations://procedure/123"
        "eregulations://procedure/\x7bid\x7d" = false ∧
    matches_pattern "eregulations://procedure/\x7bid\x7d"
        "eregulations://procedure/\x7bid\x7d" = true := ⟨rfl, rfl⟩

/-- C2 divergence: `subscribe` always raises `TypeError` — the
`ResourceSubscription` dataclass is mutable with `eq=True`, hence
unhashable, and `set.add` raises; the call leaves behind the
freshly-created empty bucket and never stores the subscription. -/
theorem subscribe_always_raises_type_error :
    subscribe [] "eregulations://procedure/\x7bid\x7d" "test-client" 0 7 =
      ([("eregulations://procedure/\x7bid\x7d", [])], some PyErr.typeError) := rfl

/-- C8 divergence: the raising `subscribe` call leaves a pattern with zero
subscribers inside the internal registry enumeration (while
`get_subscriptions` shows nothing), violating the no-empty-buckets
invariant after a sequence consisting of one `subscribe`. -/
theorem subscribe_failure_leaves_empty_bucket :
    (((subscribe [] "eregulations://procedure/\x7bid\x7d" "client-a" 1 3).1.filter
        (fun b => b.2.isEmpty)).map Prod.fst =
      ["eregulations://procedure/\x7bid\x7d"]) ∧
    get_subscriptions
        (subscribe [] "eregulations://procedure/\x7bid\x7d" "client-a" 1 3).1
        "client-a" = [] := ⟨rfl, rfl⟩

/-- The attempted-client-id component of one delivery. -/
lemma notifyOne_snd (deliver : Ctx → String → PyVal → Option String → Except PyErr Unit)
    (rid : String) (content : PyVal) (mime : Option String) (now : Nat)
    (sub : ResourceSubscription) :
    (notifyOne deliver rid content mime now sub).2 = sub.client_id := by
  unfold notifyOne
  split <;> rfl

/-- Bucket fan-out: every subscriber is attempted, in order, and each new
bucket is the pointwise per-subscriber update. -/
lemma notifyBucket_eq (deliver : Ctx → String → PyVal → Option String → Except PyErr Unit)
    (rid : String) (content : PyVal) (mime : Option String) (now : Nat) :
    ∀ subs, notifyBucket deliver rid content mime now subs =
      (subs.map (fun sub => (notifyOne deliver rid content mime now sub).1),
       subs.map ResourceSubscription.client_id) := by
  intro subs
  induction subs with
  | nil => rfl
  | cons sub rest ih =>
    simp only [notifyBucket, ih, List.map_cons, notifyOne_snd]

/-- C4.  Fan-out under partial failure: `notify_update` never raises (it
is a total function), attempts delivery to **every** subscriber of every
matching pattern — the attempted list is exactly the concatenation of the
matching buckets' client ids, independent of which deliveries fail — and
rewrites each matching bucket pointwise, where `notifyOne` updates
`last_notified` to `now` exactly when that subscriber's delivery callback
returned successfully, leaving the subscription untouched when the
callback raised. -/
theorem notify_update_partial_failure (reg : Registry) (rid : String)
    (content : PyVal) (mime : Option String)
    (deliver : Ctx → String → PyVal → Option String → Except PyErr Unit)
    (now : Nat) :
    (notify_update reg rid content mime deliver now =
      (reg.map (fun b =>
        if matches_pattern rid b.1 then
          (b.1, b.2.map (fun sub => (notifyOne deliver rid content mime now sub).1))
        else b),
       (reg.filter (fun b => matches_pattern rid b.1)).flatMap
         (fun b => b.2.map ResourceSubscription.client_id))) ∧
    (∀ sub : ResourceSubscription,
      ((notifyOne deliver rid content mime now sub).1.last_notified =
        if (deliver sub.context rid content mime).isOk then now
        else sub.last_notified) ∧
      (notifyOne deliver rid content mime now sub).1.pattern = sub.pattern ∧
      (notifyOne deliver rid content mime now sub).1.client_id = sub.client_id ∧
      (notifyOne deliver rid content mime now sub).1.created_at = sub.created_at ∧
      (notifyOne deliver rid content mime now sub).1.context = sub.context) := by
  constructor
  · induction reg with
    | nil => rfl
    | cons b rest ih =>
      rcases b with ⟨p, subs⟩
      by_cases hm : matches_pattern rid p
      · simp only [notify_update, ih, notifyBucket_eq, hm, if_true, List.map_cons,
          List.filter_cons, List.flatMap_cons]
      · simp only [notify_update, ih, hm, if_false, List.map_cons,
          List.filter_cons, List.flatMap_cons, Bool.false_eq_true]
  · intro sub
    unfold notifyOne
    cases hd : deliver sub.context rid content mime with
    | ok u => simp [Except.isOk, Except.toBool, hd]
    | error e => simp [Except.isOk, Except.toBool, hd]

/-!
Pattern compilation never fails (claim C9).

`buildPatternRegex` output is characterized through three language
invariants: `EscChunks` describes `re.escape` output, `L2` the result of
the `\*\*` → `.*` replacement, `L3` the result of the `\*` → `[^/]*`
replacement; every `L3` string (wrapped in `^…$`) parses in the
restricted regex language, so `re.compile` cannot fail on any pattern.
-/

/-- Output language of `re.escape`: a sequence of bare non-special
characters and backslash-escaped special characters. -/
inductive EscChunks : List Char → Prop where
  | nil : EscChunks []
  | plain {c : Char} {s : List Char} (h : c ∉ pySpecials) (t : EscChunks s) :
      EscChunks (c :: s)
  | esc {c : Char} {s : List Char} (h : c ∈ pySpecials) (t : EscChunks s) :
      EscChunks ('\\' :: c :: s)

/-- `re.escape` output satisfies `EscChunks`. -/
lemma reEscape_chunks (p : String) : EscChunks (reEscape p).data := by
  show EscChunks (p.data.flatMap fun c => if c ∈ pySpecials then ['\\', c] else [c])
  induction p.data with
  | nil => exact EscChunks.nil
  | cons c rest ih =>
    rw [List.flatMap_cons]
    by_cases hc : c ∈ pySpecials
    · rw [if_pos hc]
      exact EscChunks.esc hc ih
    · rw [if_neg hc]
      exact EscChunks.plain hc ih

/-- The literal character sequence `\{[^}]+\}` that `str.replace`
searches for. -/
def placeholderLit : List Char :=
  ['\\', '\x7b', '[', '^', '\x7d', ']', '+', '\\', '\x7d']

/-- Scan states of the replacement loop over an `EscChunks` string: either
a chunk boundary, or one character into an escape pair. -/
def ScanState (s : List Char) : Prop :=
  EscChunks s ∨ ∃ c t, s = c :: t ∧ EscChunks t

/-- Consuming one character preserves the scan state. -/
lemma scanState_tail {c : Char} {t : List Char} (h : ScanState (c :: t)) :
    ScanState t := by
  rcases h with h | ⟨c0, t0, heq, ht⟩
  · cases h with
    | plain hc htail => exact Or.inl htail
    | esc hc htail => exact Or.inr ⟨_, _, rfl, htail⟩
  · cases heq
    exact Or.inl ht

/-- The placeholder literal never occurs at a scan position: it would need
a bare `[` right after `\{`, but in escape output `[` is always preceded
by a backslash. -/
lemma placeholder_no_match {s : List Char} (h : ScanState s) :
    ¬ (placeholderLit.isPrefixOf s = true) := by
  intro hp
  rw [List.isPrefixOf_iff_prefix] at hp
  obtain ⟨t, rfl⟩ := hp
  rcases h with h | ⟨c0, t0, heq, ht⟩
  · cases h with
    | plain hc _ => exact hc (by decide)
    | esc hc htail =>
      cases htail with
      | plain hc2 _ => exact hc2 (by decide)
  · rw [show placeholderLit ++ t =
        '\\' :: '\x7b' :: ('[' :: '^' :: '\x7d' :: ']' :: '+' :: '\\' :: '\x7d' :: t)
        from rfl] at heq
    cases heq
    cases ht with
    | plain hc _ => exact hc (by decide)

/-- A replacement scan that can never match is the identity. -/
lemma replaceAux_id (old new : List Char) (P : List Char → Prop)
    (hstep : ∀ c s, P (c :: s) → P s)
    (hnm : ∀ s, P s → ¬ (old.isPrefixOf s = true)) :
    ∀ fuel s, P s → replaceAux old new fuel s = s := by
  intro fuel
  induction fuel with
  | zero =>
    intro s _
    cases s <;> rfl
  | succ n ih =>
    intro s hs
    cases s with
    | nil => rfl
    | cons c rest =>
      rw [replaceAux, if_neg]
      · rw [ih rest (hstep c rest hs)]
      · rintro ⟨-, hpre⟩
        exact hnm _ hs hpre

/-- One non-matching scan step. -/
lemma replaceAux_step (old new : List Char) (n : Nat) (c : Char)
    (rest : List Char) (h : old.isPrefixOf (c :: rest) = false) :
    replaceAux old new (n + 1) (c :: rest) = c :: replaceAux old new n rest := by
  rw [replaceAux, if_neg]
  rintro ⟨-, hpre⟩
  rw [h] at hpre
  exact Bool.noConfusion hpre

/-- One matching scan step. -/
lemma replaceAux_hit (old new : List Char) (n : Nat) (c : Char)
    (rest : List Char) (hne : old ≠ [])
    (h : old.isPrefixOf (c :: rest) = true) :
    replaceAux old new (n + 1) (c :: rest) =
      new ++ replaceAux old new n ((c :: rest).drop old.length) := by
  rw [replaceAux, if_pos ⟨hne, h⟩]

/-- The first of the three `str.replace` calls is the identity: the
placeholder literal cannot occur in `re.escape` output. -/
lemma stage1_replace_id (p : String) :
    replaceAux placeholderLit "[^/]+".data (reEscape p).data.length
      (reEscape p).data = (reEscape p).data :=
  replaceAux_id placeholderLit "[^/]+".data ScanState
    (fun _ _ h => scanState_tail h)
    (fun _ h => placeholder_no_match h)
    (reEscape p).data.length (reEscape p).data (Or.inl (reEscape_chunks p))

/-- If `c` is not special and `d` is, they differ. -/
lemma ne_of_special_of_not {c d : Char} (hc : c ∉ pySpecials)
    (hd : d ∈ pySpecials) : d ≠ c :=
  fun he => hc (he ▸ hd)

/-- Definitional unfolding of `isPrefixOf` on two conses. -/
lemma isPrefixOf_cons₂ (a b : Char) (as bs : List Char) :
    (a :: as).isPrefixOf (b :: bs) = (a == b && as.isPrefixOf bs) := rfl

/-- The literal `\*\*` searched by the second `str.replace`. -/
def star2Lit : List Char := ['\\', '*', '\\', '*']

/-- The replacement `.*` of the second `str.replace`. -/
def dotStarLit : List Char := ['.', '*']

/-- Language after the `\*\*` → `.*` replacement: escape chunks plus `.*`
units. -/
inductive L2 : List Char → Prop where
  | nil : L2 []
  | plain {c : Char} {s : List Char} (h : c ∉ pySpecials) (t : L2 s) : L2 (c :: s)
  | esc {c : Char} {s : List Char} (h : c ∈ pySpecials) (t : L2 s) : L2 ('\\' :: c :: s)
  | dotstar {s : List Char} (t : L2 s) : L2 ('.' :: '*' :: s)

/-- The `\*\*` → `.*` replacement maps escape output into `L2`: matches
occur exactly at adjacent `\*\*` escape pairs, which become `.*` units;
everything else is copied chunkwise. -/
lemma stage2_L2 : ∀ fuel s, EscChunks s → s.length ≤ fuel →
    L2 (replaceAux star2Lit dotStarLit fuel s) := by
  intro fuel
  induction fuel using Nat.strong_induction_on with
  | _ fuel ih =>
    intro s hs hlen
    cases hs with
    | nil =>
      cases fuel <;> exact L2.nil
    | plain hc ht =>
      rename_i c s'
      cases fuel with
      | zero => simp at hlen
      | succ n =>
        have hcne : ('\\' == c) = false :=
          beq_eq_false_iff_ne.mpr (ne_of_special_of_not hc (by decide))
        rw [replaceAux_step _ _ _ _ _ (by simp [star2Lit, isPrefixOf_cons₂, hcne])]
        simp only [List.length_cons] at hlen
        exact L2.plain hc (ih n (by omega) s' ht (by omega))
    | esc hc ht =>
      rename_i c s'
      cases fuel with
      | zero => simp at hlen
      | succ n =>
        simp only [List.length_cons] at hlen
        by_cases hcs : c = '*'
        · subst hcs
          cases ht with
          | nil =>
            obtain ⟨m, rfl⟩ : ∃ m, n = m + 1 := ⟨n - 1, by omega⟩
            rw [replaceAux_step _ _ _ _ _ (by decide)]
            rw [replaceAux_step _ _ _ _ _ (by decide)]
            have hz : replaceAux star2Lit dotStarLit m [] = [] := by
              cases m <;> rfl
            rw [hz]
            exact L2.esc (by decide) L2.nil
          | plain hc2 ht2 =>
            rename_i d s''
            simp only [List.length_cons] at hlen
            have hd : ('\\' == d) = false :=
              beq_eq_false_iff_ne.mpr (ne_of_special_of_not hc2 (by decide))
            rw [replaceAux_step _ _ _ _ _ (by simp [star2Lit, isPrefixOf_cons₂, hd])]
            obtain ⟨m, rfl⟩ : ∃ m, n = m + 1 := ⟨n - 1, by omega⟩
            rw [replaceAux_step _ _ _ _ _ (by simp [star2Lit, isPrefixOf_cons₂])]
            exact L2.esc (by decide)
              (ih m (by omega) (d :: s'') (EscChunks.plain hc2 ht2) (by simp; omega))
          | esc hc2 ht2 =>
            rename_i c2 s''
            simp only [List.length_cons] at hlen
            by_cases hc2s : c2 = '*'
            · subst hc2s
              rw [replaceAux_hit _ _ _ _ _ (by decide)
                (by simp [star2Lit, isPrefixOf_cons₂, List.isPrefixOf])]
              exact L2.dotstar (ih n (by omega) s'' ht2 (by omega))
            · have hne : ('*' == c2) = false :=
                beq_eq_false_iff_ne.mpr (fun he => hc2s he.symm)
              rw [replaceAux_step _ _ _ _ _ (by simp [star2Lit, isPrefixOf_cons₂, hne])]
              obtain ⟨m, rfl⟩ : ∃ m, n = m + 1 := ⟨n - 1, by omega⟩
              rw [replaceAux_step _ _ _ _ _ (by simp [star2Lit, isPrefixOf_cons₂])]
              exact L2.esc (by decide)
                (ih m (by omega) _ (EscChunks.esc hc2 ht2) (by simp; omega))
        · have hne : ('*' == c) = false :=
            beq_eq_false_iff_ne.mpr (fun he => hcs he.symm)
          rw [replaceAux_step _ _ _ _ _ (by simp [star2Lit, isPrefixOf_cons₂, hne])]
          obtain ⟨m, rfl⟩ : ∃ m, n = m + 1 := ⟨n - 1, by omega⟩
          by_cases hcb : c = '\\'
          · subst hcb
            have hpre : (['*', '\\', '*'] : List Char).isPrefixOf s' = false := by
              cases ht with
              | nil => rfl
              | plain hd htl =>
                rename_i d s''
                have hdne : ('*' == d) = false :=
                  beq_eq_false_iff_ne.mpr (ne_of_special_of_not hd (by decide))
                simp [isPrefixOf_cons₂, hdne]
              | esc hd htl => simp [isPrefixOf_cons₂]
            rw [replaceAux_step _ _ _ _ _ (by simp [star2Lit, isPrefixOf_cons₂, hpre])]
            exact L2.esc (by decide) (ih m (by omega) s' ht (by omega))
          · have hbne : ('\\' == c) = false :=
              beq_eq_false_iff_ne.mpr (fun he => hcb he.symm)
            rw [replaceAux_step _ _ _ _ _ (by simp [star2Lit, isPrefixOf_cons₂, hbne])]
            exact L2.esc hc (ih m (by omega) s' ht (by omega))

/-- The literal `\*` searched by the third `str.replace`. -/
def star1Lit : List Char := ['\\', '*']

/-- The replacement `[^/]*` of the third `str.replace`. -/
def nonSepLit : List Char := ['[', '^', '/', ']', '*']

/-- Language after the `\*` → `[^/]*` replacement: escaped specials other
than `*`, bare non-specials, `.*` and `[^/]*` units. -/
inductive L3 : List Char → Prop where
  | nil : L3 []
  | plain {c : Char} {s : List Char} (h : c ∉ pySpecials) (t : L3 s) : L3 (c :: s)
  | esc {c : Char} {s : List Char} (h : c ∈ pySpecials) (hne : c ≠ '*') (t : L3 s) :
      L3 ('\\' :: c :: s)
  | dotstar {s : List Char} (t : L3 s) : L3 ('.' :: '*' :: s)
  | brackstar {s : List Char} (t : L3 s) : L3 ('[' :: '^' :: '/' :: ']' :: '*' :: s)

/-- No `L2` string starts with a bare `*` (every unit starts with a
non-special character, a backslash or a dot). -/
lemma L2_star_not_prefix {s : List Char} (h : L2 s) :
    (['*'] : List Char).isPrefixOf s = false := by
  cases h with
  | nil => rfl
  | plain hd htl =>
    rename_i d s'
    have hdne : ('*' == d) = false :=
      beq_eq_false_iff_ne.mpr (ne_of_special_of_not hd (by decide))
    simp [isPrefixOf_cons₂, hdne]
  | esc hd htl => simp [isPrefixOf_cons₂]
  | dotstar htl => simp [isPrefixOf_cons₂]

/-- The `\*` → `[^/]*` replacement maps `L2` into `L3`: matches occur
exactly at `\*` escape units, which become `[^/]*`. -/
lemma stage3_L3 : ∀ fuel s, L2 s → s.length ≤ fuel →
    L3 (replaceAux star1Lit nonSepLit fuel s) := by
  intro fuel
  induction fuel using Nat.strong_induction_on with
  | _ fuel ih =>
    intro s hs hlen
    cases hs with
    | nil =>
      cases fuel <;> exact L3.nil
    | plain hc ht =>
      rename_i c s'
      cases fuel with
      | zero => simp at hlen
      | succ n =>
        have hcne : ('\\' == c) = false :=
          beq_eq_false_iff_ne.mpr (ne_of_special_of_not hc (by decide))
        rw [replaceAux_step _ _ _ _ _ (by simp [star1Lit, isPrefixOf_cons₂, hcne])]
        simp only [List.length_cons] at hlen
        exact L3.plain hc (ih n (by omega) s' ht (by omega))
    | esc hc ht =>
      rename_i c s'
      cases fuel with
      | zero => simp at hlen
      | succ n =>
        simp only [List.length_cons] at hlen
        by_cases hcs : c = '*'
        · subst hcs
          rw [replaceAux_hit _ _ _ _ _ (by decide)
            (by simp [star1Lit, isPrefixOf_cons₂, List.isPrefixOf])]
          exact L3.brackstar (ih n (by omega) s' ht (by omega))
        · have hne : ('*' == c) = false :=
            beq_eq_false_iff_ne.mpr (fun he => hcs he.symm)
          rw [replaceAux_step _ _ _ _ _ (by simp [star1Lit, isPrefixOf_cons₂, hne])]
          obtain ⟨m, rfl⟩ : ∃ m, n = m + 1 := ⟨n - 1, by omega⟩
          by_cases hcb : c = '\\'
          · subst hcb
            have hpre := L2_star_not_prefix ht
            rw [replaceAux_step _ _ _ _ _ (by simp [star1Lit, isPrefixOf_cons₂, hpre])]
            exact L3.esc (by decide) (by decide) (ih m (by omega) s' ht (by omega))
          · have hbne : ('\\' == c) = false :=
              beq_eq_false_iff_ne.mpr (fun he => hcb he.symm)
            rw [replaceAux_step _ _ _ _ _ (by simp [star1Lit, isPrefixOf_cons₂, hbne])]
            exact L3.esc hc hcs (ih m (by omega) s' ht (by omega))
    | dotstar ht =>
      rename_i s'
      cases fuel with
      | zero => simp at hlen
      | succ n =>
        simp only [List.length_cons] at hlen
        rw [replaceAux_step _ _ _ _ _ (by simp [star1Lit, isPrefixOf_cons₂])]
        obtain ⟨m, rfl⟩ : ∃ m, n = m + 1 := ⟨n - 1, by omega⟩
        rw [replaceAux_step _ _ _ _ _ (by simp [star1Lit, isPrefixOf_cons₂])]
        exact L3.dotstar (ih m (by omega) s' ht (by omega))

/-- The restricted metacharacters are all `re.escape` specials. -/
lemma regexMeta_sub : ∀ c ∈ regexMeta, c ∈ pySpecials := by decide

/-- `isSome` is preserved by `Option.map`. -/
lemma isSome_option_map {α β : Type} (f : α → β) (o : Option α) :
    (o.map f).isSome = o.isSome := by
  cases o <;> rfl

/-- The parser accepts an escaped character. -/
lemma parseToks_esc_eq (c : Char) (rest : List Char) :
    parseToks ('\\' :: c :: rest) =
      (parseToks rest).map (fun ts => RTok.lit c :: ts) := rfl

/-- The parser accepts a `.*` unit. -/
lemma parseToks_dotstar_eq (rest : List Char) :
    parseToks ('.' :: '*' :: rest) =
      (parseToks rest).map (fun ts => RTok.anyStar :: ts) := rfl

/-- The parser accepts a `[^/]*` unit. -/
lemma parseToks_brackstar_eq (rest : List Char) :
    parseToks ('[' :: '^' :: '/' :: ']' :: '*' :: rest) =
      (parseToks rest).map (fun ts => RTok.nonSepStar :: ts) := rfl

/-- Every `L3` string followed by the final `$` anchor parses. -/
lemma parseToks_L3 : ∀ s : List Char, L3 s →
    (parseToks (s ++ ['$'])).isSome = true := by
  intro s h
  induction h with
  | nil => rfl
  | plain hc ht ih =>
    rename_i c s'
    have hm : c ∉ regexMeta := fun hmem => hc (regexMeta_sub c hmem)
    have h1 : ¬ (c = '\\') := fun he => hm (he ▸ by decide)
    have h2 : ¬ (c = '[') := fun he => hm (he ▸ by decide)
    have h3 : ¬ (c = '.') := fun he => hm (he ▸ by decide)
    have h4 : ¬ (c = '$') := fun he => hm (he ▸ by decide)
    show (parseToks (c :: (s' ++ ['$']))).isSome = true
    unfold parseToks
    split
    · rfl
    · rename_i c2 rest2 heq
      injection heq with hcc _
      exact absurd hcc h1
    · rename_i rest2 heq
      injection heq with hcc _
      exact absurd hcc h2
    · rename_i rest2 heq
      injection heq with hcc _
      exact absurd hcc h2
    · rename_i rest2 heq
      injection heq with hcc _
      exact absurd hcc h3
    · rename_i heq
      injection heq with hcc _
      exact absurd hcc h4
    · rename_i c2 rest2 f1 f2 f3 f4 f5 heq
      injection heq with hcc hrest
      subst hcc
      subst hrest
      rw [if_neg hm, isSome_option_map]
      exact ih
  | esc hc hne ht ih =>
    rename_i c s'
    show (parseToks ('\\' :: c :: (s' ++ ['$']))).isSome = true
    rw [parseToks_esc_eq, isSome_option_map]
    exact ih
  | dotstar ht ih =>
    rename_i s'
    show (parseToks ('.' :: '*' :: (s' ++ ['$']))).isSome = true
    rw [parseToks_dotstar_eq, isSome_option_map]
    exact ih
  | brackstar ht ih =>
    rename_i s'
    show (parseToks ('[' :: '^' :: '/' :: ']' :: '*' :: (s' ++ ['$']))).isSome = true
    rw [parseToks_brackstar_eq, isSome_option_map]
    exact ih

/-- Every pattern compiles: the regex string `_matches_pattern` builds
always parses in the restricted language (so `re.compile` cannot raise on
any subscription pattern). -/
lemma buildPatternRegex_parses (pattern : String) :
    (reParse (buildPatternRegex pattern)).isSome = true := by
  have hbody : L3 (strReplace
      (strReplace
        (strReplace (reEscape pattern) "\\\x7b[^\x7d]+\\\x7d" "[^/]+")
        "\\*\\*" ".*")
      "\\*" "[^/]*").data := by
    have hs1 : (strReplace (reEscape pattern) "\\\x7b[^\x7d]+\\\x7d" "[^/]+").data =
        (reEscape pattern).data := stage1_replace_id pattern
    have hs2 : L2 (strReplace
        (strReplace (reEscape pattern) "\\\x7b[^\x7d]+\\\x7d" "[^/]+")
        "\\*\\*" ".*").data := by
      show L2 (replaceAux star2Lit dotStarLit
        (strReplace (reEscape pattern) "\\\x7b[^\x7d]+\\\x7d" "[^/]+").data.length
        (strReplace (reEscape pattern) "\\\x7b[^\x7d]+\\\x7d" "[^/]+").data)
      rw [hs1]
      exact stage2_L2 (reEscape pattern).data.length (reEscape pattern).data
        (reEscape_chunks pattern) le_rfl
    show L3 (replaceAux star1Lit nonSepLit
      (strReplace
        (strReplace (reEscape pattern) "\\\x7b[^\x7d]+\\\x7d" "[^/]+")
        "\\*\\*" ".*").data.length
      (strReplace
        (strReplace (reEscape pattern) "\\\x7b[^\x7d]+\\\x7d" "[^/]+")
        "\\*\\*" ".*").data)
    exact stage3_L3 _ _ hs2 le_rfl
  have hdata : (buildPatternRegex pattern).data =
      '^' :: ((strReplace
        (strReplace
          (strReplace (reEscape pattern) "\\\x7b[^\x7d]+\\\x7d" "[^/]+")
          "\\*\\*" ".*")
        "\\*" "[^/]*").data ++ ['$']) := by
    show ("^" ++ (strReplace
        (strReplace
          (strReplace (reEscape pattern) "\\\x7b[^\x7d]+\\\x7d" "[^/]+")
          "\\*\\*" ".*")
        "\\*" "[^/]*") ++ "$").data = _
    rw [String.data_append, String.data_append]
    rfl
  rw [reParse, hdata]
  exact parseToks_L3 _ hbody

/-- C9 counterexample: a pattern with "unbalanced wildcard syntax" is not
rejected — its compiled rule parses fine, and the error `subscribe`
actually raises is the pattern-independent `TypeError`, not an
invalid-pattern rejection. -/
theorem invalid_pattern_not_rejected :
    (reParse (buildPatternRegex "a://b/[**")).isSome = true ∧
    (subscribe [] "a://b/[**" "client-1" 0 5).2 = some PyErr.typeError :=
  ⟨rfl, rfl⟩

/-- C9 amended.  No subscription pattern can fail to compile into a
matching rule: `re.escape` runs before the wildcard substitutions, so
every built regex parses (first conjunct); and `subscribe` performs no
pattern validation at all — the error it propagates is the unconditional
`TypeError` from adding the unhashable subscription record, identical for
every pattern, valid-looking or not (second conjunct). -/
theorem subscribe_never_pattern_error :
    (∀ pattern : String, (reParse (buildPatternRegex pattern)).isSome = true) ∧
    (∀ (reg : Registry) (pattern client_id : String) (ctx : Ctx) (now : Nat),
      (subscribe reg pattern client_id ctx now).2 = some PyErr.typeError) := by
  refine ⟨buildPatternRegex_parses, ?_⟩
  intro reg pattern client_id ctx now
  rfl
